import Mathlib

/-!
Verification of `tools/code_analyzer/gen_oplist.py`.

The script merges per-model operator-usage manifests (each parsed into a
`SelectiveBuilder`) into one combined selective-build descriptor, validates
it, and serializes it.  The `SelectiveBuilder` data type and the binary
merge `combine_selective_builders` live in the module
`tools.codegen.selective_build.selector`, which is not part of this
repository snapshot; they are modelled here from the specification.  All
functions defined in `gen_oplist.py` itself (`extract_all_operators`,
`extract_training_operators`, `throw_if_any_op_includes_overloads`,
`gen_supported_mobile_models`, and the fold in `main`) are translated
directly from the source.
-/

namespace GenOplist

/-- Modelled from the spec: one operator record of the missing module
`tools.codegen.selective_build.selector`.  Attributes (§3 of the spec):
`includeAllOverloads` (bool) and `isUsedForTraining` (bool); the Python
attribute names `include_all_overloads` / `is_used_for_training` are the
ones read by `gen_oplist.py`. -/
structure Operator where
  include_all_overloads : Bool
  is_used_for_training : Bool
deriving DecidableEq, Repr

/-- Modelled from the spec: a selective-build descriptor is "a mapping from
operator name to OperatorRecord" with unique keys and "no ordering
semantics among entries".  We represent the mapping as an association
list; well-formedness (unique keys) is the predicate `WF` below, and
the mapping-equality used by Python `==` on dicts is the extensional
relation `Equiv` below. -/
structure SelectiveBuilder where
  operators : List (String × Operator)
deriving DecidableEq, Repr

/-- Dictionary lookup on the association list: the record stored under a
key (first occurrence; well-formed descriptors have at most one). -/
def lookupOp (l : List (String × Operator)) (k : String) : Option Operator :=
  match l with
  | [] => none
  | p :: ps => if p.1 = k then some p.2 else lookupOp ps k

/-- The record a descriptor maps an operator name to, if any. -/
def SelectiveBuilder.getOp (sb : SelectiveBuilder) (k : String) : Option Operator :=
  lookupOp sb.operators k

/-- The list of operator names of a descriptor (the keys of its mapping). -/
def SelectiveBuilder.opNames (sb : SelectiveBuilder) : List String :=
  sb.operators.map Prod.fst

/-- Well-formedness (§3 invariant): "an operator name is unique within a
descriptor". -/
def WF (sb : SelectiveBuilder) : Prop :=
  sb.opNames.Nodup

instance (sb : SelectiveBuilder) : Decidable (WF sb) := by
  unfold WF; infer_instance

/-- Mapping equality of two descriptors: they assign the same record to
every operator name.  This is what Python dict `==` compares (entry
order is irrelevant), matching the spec's "no ordering semantics". -/
def Equiv (a b : SelectiveBuilder) : Prop :=
  ∀ k, a.getOp k = b.getOp k

/-- Modelled from the spec: the merge of two records present under the
same name, "merge fields by logical OR" (§4.2). -/
def combineOperator (x y : Operator) : Operator :=
  ⟨x.include_all_overloads || y.include_all_overloads,
   x.is_used_for_training || y.is_used_for_training⟩

/-- Modelled from the spec: the record the combined descriptor keeps for a
name present in descriptor `a`: merged field-wise when `b` also has the
name, `a`'s record unchanged otherwise (§4.2). -/
def mergeWith (b : SelectiveBuilder) (k : String) (v : Operator) : Operator :=
  match lookupOp b.operators k with
  | some w => combineOperator v w
  | none => v

/-- Modelled from the spec: `combine_selective_builders` of the missing
module `tools.codegen.selective_build.selector` (§4.2): the result has
one entry per name present in either input; a name present in only one
input keeps its record, a name present in both gets the field-wise OR. -/
def combine_selective_builders (a b : SelectiveBuilder) : SelectiveBuilder :=
  ⟨a.operators.map (fun p => (p.1, mergeWith b p.1 p.2))
   ++ b.operators.filter (fun p => (lookupOp a.operators p.1).isNone)⟩

/-- Modelled from the spec: `SelectiveBuilder.from_yaml_dict({})`, the
descriptor containing no operators (the identity element of §4.2). -/
def SelectiveBuilder.empty : SelectiveBuilder := ⟨[]⟩

/-- `main` lines 160-165: start from `SelectiveBuilder.from_yaml_dict({})`
and, when the list is non-empty, `reduce(combine_selective_builders, ...)`
over it (Python `reduce` with no initializer folds from the head). -/
def combineAll (sbs : List SelectiveBuilder) : SelectiveBuilder :=
  match sbs with
  | [] => SelectiveBuilder.empty
  | x :: xs => xs.foldl combine_selective_builders x

/- ### Basic lookup lemmas -/

theorem lookupOp_append (l1 l2 : List (String × Operator)) (k : String) :
    lookupOp (l1 ++ l2) k =
      (match lookupOp l1 k with
       | some v => some v
       | none => lookupOp l2 k) := by
  induction l1 with
  | nil => simp [lookupOp]
  | cons p ps ih =>
    by_cases h : p.1 = k <;> simp [lookupOp, h, ih]

theorem lookupOp_map_keyed (l : List (String × Operator))
    (g : String → Operator → Operator) (k : String) :
    lookupOp (l.map (fun p => (p.1, g p.1 p.2))) k =
      (lookupOp l k).map (g k) := by
  induction l with
  | nil => simp [lookupOp]
  | cons p ps ih =>
    by_cases h : p.1 = k
    · subst h; simp [lookupOp, ih]
    · simp [lookupOp, h, ih]

theorem lookupOp_filter_key (l : List (String × Operator))
    (q : String → Bool) (k : String) :
    lookupOp (l.filter (fun p => q p.1)) k =
      (if q k then lookupOp l k else none) := by
  induction l with
  | nil => simp [lookupOp]
  | cons p ps ih =>
    by_cases h : p.1 = k
    · subst h
      by_cases hq : q p.1 <;> simp [lookupOp, hq, ih]
    · by_cases hq : q p.1 <;> simp [lookupOp, h, hq, ih]

theorem lookupOp_eq_none_iff (l : List (String × Operator)) (k : String) :
    lookupOp l k = none ↔ k ∉ l.map Prod.fst := by
  induction l with
  | nil => simp [lookupOp]
  | cons p ps ih =>
    simp only [lookupOp, List.map_cons, List.mem_cons]
    by_cases h : p.1 = k
    · simp [h]
    · rw [if_neg h, ih]
      constructor
      · intro hni hmem
        rcases hmem with he | hm
        · exact h he.symm
        · exact hni hm
      · intro hni hm
        exact hni (Or.inr hm)

theorem lookupOp_mem (l : List (String × Operator)) (k : String) (v : Operator)
    (h : lookupOp l k = some v) : (k, v) ∈ l := by
  induction l with
  | nil => simp [lookupOp] at h
  | cons p ps ih =>
    simp only [lookupOp] at h
    by_cases hk : p.1 = k
    · rw [if_pos hk] at h
      injection h with h2
      subst hk
      subst h2
      exact List.mem_cons_self _ _
    · rw [if_neg hk] at h
      exact List.mem_cons_of_mem _ (ih h)

theorem lookupOp_isSome_iff (l : List (String × Operator)) (k : String) :
    (lookupOp l k).isSome ↔ k ∈ l.map Prod.fst := by
  constructor
  · intro hs
    cases hl : lookupOp l k with
    | none => rw [hl] at hs; simp at hs
    | some v => exact List.mem_map.mpr ⟨(k, v), lookupOp_mem l k v hl, rfl⟩
  · intro hm
    cases hl : lookupOp l k with
    | none => exact absurd hm ((lookupOp_eq_none_iff l k).mp hl)
    | some v => simp

/-- Option-level merge: the behaviour of `combine_selective_builders` on
the record stored under one fixed name. -/
def mergeO (x y : Option Operator) : Option Operator :=
  match x, y with
  | some v, some w => some (combineOperator v w)
  | some v, none => some v
  | none, some w => some w
  | none, none => none

/-- Pointwise description of the combinator: the record the combined
descriptor stores under a name is the option-level merge of the records
the two inputs store there.  Holds for all descriptors, well-formed or
not (lookup takes first occurrences). -/
theorem getOp_combine (a b : SelectiveBuilder) (k : String) :
    (combine_selective_builders a b).getOp k = mergeO (a.getOp k) (b.getOp k) := by
  unfold combine_selective_builders SelectiveBuilder.getOp
  rw [lookupOp_append, lookupOp_map_keyed a.operators (mergeWith b) k,
    lookupOp_filter_key b.operators (fun k0 => (lookupOp a.operators k0).isNone) k]
  cases ha : lookupOp a.operators k <;> cases hb : lookupOp b.operators k <;>
    simp [mergeO, mergeWith, ha, hb]

/- ### Algebra of the record merge -/

theorem combineOperator_comm (x y : Operator) :
    combineOperator x y = combineOperator y x := by
  simp [combineOperator, Bool.or_comm]

theorem combineOperator_assoc (x y z : Operator) :
    combineOperator (combineOperator x y) z =
      combineOperator x (combineOperator y z) := by
  simp [combineOperator, Bool.or_assoc]

theorem mergeO_comm (x y : Option Operator) : mergeO x y = mergeO y x := by
  cases x <;> cases y <;> simp [mergeO, combineOperator_comm]

theorem mergeO_assoc (x y z : Option Operator) :
    mergeO (mergeO x y) z = mergeO x (mergeO y z) := by
  cases x <;> cases y <;> cases z <;> simp [mergeO, combineOperator_assoc]

theorem mergeO_none_left (y : Option Operator) : mergeO none y = y := by
  cases y <;> rfl

theorem mergeO_none_right (x : Option Operator) : mergeO x none = x := by
  cases x <;> rfl

/- ### Mapping equality is decidable (it suffices to compare the finitely
many names either descriptor mentions) -/

theorem equiv_iff_mem (a b : SelectiveBuilder) :
    Equiv a b ↔ ∀ k ∈ a.opNames ++ b.opNames, a.getOp k = b.getOp k := by
  constructor
  · intro h k _
    exact h k
  · intro h k
    by_cases hka : k ∈ a.opNames
    · exact h k (List.mem_append.mpr (Or.inl hka))
    · by_cases hkb : k ∈ b.opNames
      · exact h k (List.mem_append.mpr (Or.inr hkb))
      · have ha : lookupOp a.operators k = none :=
          (lookupOp_eq_none_iff a.operators k).mpr hka
        have hb : lookupOp b.operators k = none :=
          (lookupOp_eq_none_iff b.operators k).mpr hkb
        show lookupOp a.operators k = lookupOp b.operators k
        rw [ha, hb]

instance (a b : SelectiveBuilder) : Decidable (Equiv a b) :=
  decidable_of_iff _ (equiv_iff_mem a b).symm

/- ### The fold in `main`, pointwise -/

theorem getOp_foldl_combine (xs : List SelectiveBuilder) (a : SelectiveBuilder)
    (k : String) :
    (xs.foldl combine_selective_builders a).getOp k =
      xs.foldl (fun acc sb => mergeO acc (sb.getOp k)) (a.getOp k) := by
  induction xs generalizing a with
  | nil => rfl
  | cons x xs ih =>
    simp only [List.foldl_cons]
    rw [ih, getOp_combine]

theorem getOp_combineAll (l : List SelectiveBuilder) (k : String) :
    (combineAll l).getOp k =
      l.foldl (fun acc sb => mergeO acc (sb.getOp k)) none := by
  cases l with
  | nil => rfl
  | cons x xs =>
    show (xs.foldl combine_selective_builders x).getOp k = _
    rw [getOp_foldl_combine, List.foldl_cons, mergeO_none_left]

/- ### The empty descriptor is a two-sided unit, as a literal equality -/

theorem combine_empty_right (a : SelectiveBuilder) :
    combine_selective_builders a SelectiveBuilder.empty = a := by
  unfold combine_selective_builders SelectiveBuilder.empty
  simp [mergeWith, lookupOp]

theorem combine_empty_left (a : SelectiveBuilder) :
    combine_selective_builders SelectiveBuilder.empty a = a := by
  unfold combine_selective_builders SelectiveBuilder.empty
  simp [lookupOp]

/- ### Key-set of a combined descriptor -/

theorem opNames_combine (a b : SelectiveBuilder) :
    (combine_selective_builders a b).opNames =
      a.opNames ++
        (b.operators.filter
          (fun p => (lookupOp a.operators p.1).isNone)).map Prod.fst := by
  unfold combine_selective_builders SelectiveBuilder.opNames
  simp [List.map_map, Function.comp]

theorem mem_opNames_combine (a b : SelectiveBuilder) (k : String) :
    k ∈ (combine_selective_builders a b).opNames ↔
      k ∈ a.opNames ∨ k ∈ b.opNames := by
  show k ∈ (combine_selective_builders a b).operators.map Prod.fst ↔
    k ∈ a.operators.map Prod.fst ∨ k ∈ b.operators.map Prod.fst
  rw [← lookupOp_isSome_iff a.operators k, ← lookupOp_isSome_iff b.operators k,
    ← lookupOp_isSome_iff (combine_selective_builders a b).operators k]
  show (SelectiveBuilder.getOp _ k).isSome ↔ _
  rw [getOp_combine]
  cases ha : a.getOp k <;> cases hb : b.getOp k <;>
    simp_all [mergeO, SelectiveBuilder.getOp]

theorem WF_combine (a b : SelectiveBuilder) (ha : WF a) (hb : WF b) :
    WF (combine_selective_builders a b) := by
  unfold WF
  rw [opNames_combine]
  refine List.Nodup.append ha ?_ ?_
  · exact ((b.operators.filter_sublist).map Prod.fst).nodup hb
  · intro k hka hkf
    obtain ⟨p, hp, hpk⟩ := List.mem_map.mp hkf
    have hq := (List.mem_filter.mp hp).2
    rw [hpk] at hq
    have : lookupOp a.operators k = none := by
      cases hlk : lookupOp a.operators k
      · rfl
      · rw [hlk] at hq; simp at hq
    exact (lookupOp_eq_none_iff a.operators k).mp this hka

/- ### Concrete descriptors used by the witnesses (spec §8 scenarios) -/

def sbA : SelectiveBuilder :=
  ⟨[("aten::add", ⟨false, false⟩), ("aten::mul", ⟨false, true⟩)]⟩

def sbB : SelectiveBuilder :=
  ⟨[("aten::add", ⟨true, false⟩), ("aten::relu", ⟨false, false⟩)]⟩

def sbC : SelectiveBuilder :=
  ⟨[("aten::mul", ⟨true, true⟩)]⟩

/-- C1: for well-formed descriptors `a` and `b`, the combined descriptor
has exactly one entry per operator name present in either input (its key
list is duplicate-free and its membership is the union of the inputs'
key sets); a name present in only one input keeps that input's record
unchanged, and a name present in both gets `include_all_overloads` and
`is_used_for_training` each the logical OR of the two inputs' flags. -/
theorem combine_entry_spec (a b : SelectiveBuilder) (ha : WF a) (hb : WF b) :
    WF (combine_selective_builders a b) ∧
    (∀ k, k ∈ (combine_selective_builders a b).opNames ↔
      k ∈ a.opNames ∨ k ∈ b.opNames) ∧
    (∀ k v, a.getOp k = some v → b.getOp k = none →
      (combine_selective_builders a b).getOp k = some v) ∧
    (∀ k v, a.getOp k = none → b.getOp k = some v →
      (combine_selective_builders a b).getOp k = some v) ∧
    (∀ k va vb, a.getOp k = some va → b.getOp k = some vb →
      (combine_selective_builders a b).getOp k =
        some ⟨va.include_all_overloads || vb.include_all_overloads,
              va.is_used_for_training || vb.is_used_for_training⟩) := by
  refine ⟨WF_combine a b ha hb, mem_opNames_combine a b, ?_, ?_, ?_⟩
  · intro k v h1 h2
    rw [getOp_combine, h1, h2]
    rfl
  · intro k v h1 h2
    rw [getOp_combine, h1, h2]
    rfl
  · intro k va vb h1 h2
    rw [getOp_combine, h1, h2]
    rfl

/-- Witness for C1 at the concrete descriptors `sbA`, `sbB`. -/
theorem combine_entry_spec_witness :
    WF (combine_selective_builders sbA sbB) ∧
    (∀ k, k ∈ (combine_selective_builders sbA sbB).opNames ↔
      k ∈ sbA.opNames ∨ k ∈ sbB.opNames) ∧
    (∀ k v, sbA.getOp k = some v → sbB.getOp k = none →
      (combine_selective_builders sbA sbB).getOp k = some v) ∧
    (∀ k v, sbA.getOp k = none → sbB.getOp k = some v →
      (combine_selective_builders sbA sbB).getOp k = some v) ∧
    (∀ k va vb, sbA.getOp k = some va → sbB.getOp k = some vb →
      (combine_selective_builders sbA sbB).getOp k =
        some ⟨va.include_all_overloads || vb.include_all_overloads,
              va.is_used_for_training || vb.is_used_for_training⟩) :=
  combine_entry_spec sbA sbB (by decide) (by decide)

/-- C3: `combine` is commutative up to mapping equality (Python dict
equality of the results): for all descriptors, combining in either order
assigns the same record to every operator name. -/
theorem combine_comm (a b : SelectiveBuilder) :
    Equiv (combine_selective_builders a b) (combine_selective_builders b a) := by
  intro k
  rw [getOp_combine, getOp_combine, mergeO_comm]

/-- C4: `combine` is associative up to mapping equality, and consequently
the left-to-right reduction performed by `main` yields the same mapping
for every permutation of the input descriptors. -/
theorem combine_assoc_perm_invariant (a b c : SelectiveBuilder)
    (l1 l2 : List SelectiveBuilder) (hperm : l1.Perm l2) :
    Equiv (combine_selective_builders (combine_selective_builders a b) c)
      (combine_selective_builders a (combine_selective_builders b c)) ∧
    Equiv (combineAll l1) (combineAll l2) := by
  constructor
  · intro k
    rw [getOp_combine, getOp_combine, getOp_combine, getOp_combine, mergeO_assoc]
  · intro k
    rw [getOp_combineAll, getOp_combineAll]
    exact hperm.foldl_eq'
      (fun x _ y _ z => by
        rw [mergeO_assoc, mergeO_assoc, mergeO_comm (x.getOp k) (y.getOp k)])
      none

/-- Witness for C4: associativity at `sbA`, `sbB`, `sbC`, and order
independence of the fold for a concrete permutation of those three. -/
theorem combine_assoc_perm_invariant_witness :
    Equiv (combine_selective_builders (combine_selective_builders sbA sbB) sbC)
      (combine_selective_builders sbA (combine_selective_builders sbB sbC)) ∧
    Equiv (combineAll [sbA, sbB, sbC]) (combineAll [sbC, sbA, sbB]) :=
  combine_assoc_perm_invariant sbA sbB sbC [sbA, sbB, sbC] [sbC, sbA, sbB]
    (by decide)

/-- C5: the empty descriptor (`SelectiveBuilder.from_yaml_dict({})`) is an
identity element for `combine`, even as a literal equality of
representations. -/
theorem combine_empty_identity (a : SelectiveBuilder) :
    combine_selective_builders a SelectiveBuilder.empty = a ∧
    combine_selective_builders SelectiveBuilder.empty a = a :=
  ⟨combine_empty_right a, combine_empty_left a⟩

/- ### Functions of `gen_oplist.py` itself -/

/-- `extract_all_operators` (gen_oplist.py lines 15-19): append every
operator name of the builder to a list and return it as a set. -/
def extract_all_operators (sb : SelectiveBuilder) : Finset String :=
  (sb.operators.map Prod.fst).toFinset

/-- `extract_training_operators` (gen_oplist.py lines 22-27): append the
names whose record has `is_used_for_training` set and return them as a
set. -/
def extract_training_operators (sb : SelectiveBuilder) : Finset String :=
  ((sb.operators.filter (fun p => p.2.is_used_for_training)).map Prod.fst).toFinset

/-- The local list `ops` built by `throw_if_any_op_includes_overloads`
(gen_oplist.py lines 31-34): the names whose record has
`include_all_overloads` set, in iteration order. -/
def overload_ops (sb : SelectiveBuilder) : List String :=
  (sb.operators.filter (fun p => p.2.include_all_overloads)).map Prod.fst

/-- The message of the exception raised at gen_oplist.py lines 36-42. -/
def overloads_error_message (ops : List String) : String :=
  "Operators that include all overloads are not allowed since " ++
    "--allow_include_all_overloads was specified: " ++
    String.intercalate ", " ops

/-- `throw_if_any_op_includes_overloads` (gen_oplist.py lines 30-42):
raise when the list of offending names is non-empty, else return
normally.  The raised exception is modelled as `Except.error` carrying
the formatted message. -/
def throw_if_any_op_includes_overloads (sb : SelectiveBuilder) :
    Except String Unit :=
  let ops := overload_ops sb
  if ops.isEmpty then Except.ok () else
    Except.error (overloads_error_message ops)

/-- `main` lines 167-168: the check runs on the combined builder exactly
when `--allow_include_all_overloads` was not given. -/
def run_overload_validation (allow_flag : Bool) (sb : SelectiveBuilder) :
    Except String Unit :=
  if !allow_flag then throw_if_any_op_includes_overloads sb
  else Except.ok ()

theorem mem_overload_ops (sb : SelectiveBuilder) (k : String) :
    k ∈ overload_ops sb ↔
      ∃ v, (k, v) ∈ sb.operators ∧ v.include_all_overloads = true := by
  unfold overload_ops
  constructor
  · intro h
    obtain ⟨p, hp, hpk⟩ := List.mem_map.mp h
    obtain ⟨hpm, hpf⟩ := List.mem_filter.mp hp
    subst hpk
    exact ⟨p.2, hpm, hpf⟩
  · intro ⟨v, hm, hf⟩
    exact List.mem_map.mpr ⟨(k, v), List.mem_filter.mpr ⟨hm, hf⟩, rfl⟩

theorem lookupOp_eq_of_mem (l : List (String × Operator))
    (hnd : (l.map Prod.fst).Nodup) (k : String) (v : Operator)
    (h : (k, v) ∈ l) : lookupOp l k = some v := by
  induction l with
  | nil => simp at h
  | cons p ps ih =>
    simp only [List.map_cons, List.nodup_cons] at hnd
    rcases List.mem_cons.mp h with he | hm
    · rw [← he]
      simp [lookupOp]
    · have hne : p.1 ≠ k := by
        intro hk
        exact hnd.1 (hk ▸ List.mem_map.mpr ⟨(k, v), hm, rfl⟩)
      simp only [lookupOp, hne, if_false]
      exact ih hnd.2 hm

/-- C2: `throw_if_any_op_includes_overloads` raises exactly when some
operator record has `include_all_overloads = true`; the raised message is
the fixed text followed by the comma-separated list of all offending
names (so it names each of them); without `--allow_include_all_overloads`
the check is applied to the combined descriptor, and with the flag no
error is raised. -/
theorem throw_iff_overload_ops (sb : SelectiveBuilder) (hwf : WF sb) :
    ((∃ e, throw_if_any_op_includes_overloads sb = Except.error e) ↔
      (∃ k v, sb.getOp k = some v ∧ v.include_all_overloads = true)) ∧
    (∀ e, throw_if_any_op_includes_overloads sb = Except.error e →
      e = overloads_error_message (overload_ops sb)) ∧
    (∀ k v, sb.getOp k = some v → v.include_all_overloads = true →
      k ∈ overload_ops sb) ∧
    (∀ sbs : List SelectiveBuilder,
      run_overload_validation false (combineAll sbs) =
        throw_if_any_op_includes_overloads (combineAll sbs)) ∧
    (run_overload_validation true sb = Except.ok ()) := by
  refine ⟨?_, ?_, ?_, fun _ => rfl, rfl⟩
  · constructor
    · intro ⟨e, he⟩
      unfold throw_if_any_op_includes_overloads at he
      by_cases hne : (overload_ops sb).isEmpty
      · rw [if_pos hne] at he
        exact absurd he (by simp)
      · cases hops : overload_ops sb with
        | nil => rw [hops] at hne; simp at hne
        | cons k ks =>
          have hk : k ∈ overload_ops sb := by
            rw [hops]; exact List.mem_cons_self _ _
          obtain ⟨v, hm, hf⟩ := (mem_overload_ops sb k).mp hk
          exact ⟨k, v, lookupOp_eq_of_mem sb.operators hwf k v hm, hf⟩
    · intro ⟨k, v, hg, hf⟩
      have hk : k ∈ overload_ops sb :=
        (mem_overload_ops sb k).mpr ⟨v, lookupOp_mem sb.operators k v hg, hf⟩
      have hne : (overload_ops sb).isEmpty = false := by
        cases hops : overload_ops sb with
        | nil => rw [hops] at hk; simp at hk
        | cons x xs => rfl
      exact ⟨overloads_error_message (overload_ops sb), by
        simp [throw_if_any_op_includes_overloads, hne]⟩
  · intro e he
    unfold throw_if_any_op_includes_overloads at he
    by_cases hne : (overload_ops sb).isEmpty
    · rw [if_pos hne] at he
      exact absurd he (by simp)
    · rw [if_neg hne] at he
      exact ((Except.error.injEq _ _).mp he).symm
  · intro k v hg hf
    exact (mem_overload_ops sb k).mpr ⟨v, lookupOp_mem sb.operators k v hg, hf⟩

/-- Witness for C2 at the concrete descriptor `sbB` (which contains an
operator with `include_all_overloads = true`). -/
theorem throw_iff_overload_ops_witness :
    ((∃ e, throw_if_any_op_includes_overloads sbB = Except.error e) ↔
      (∃ k v, sbB.getOp k = some v ∧ v.include_all_overloads = true)) ∧
    (∀ e, throw_if_any_op_includes_overloads sbB = Except.error e →
      e = overloads_error_message (overload_ops sbB)) ∧
    (∀ k v, sbB.getOp k = some v → v.include_all_overloads = true →
      k ∈ overload_ops sbB) ∧
    (∀ sbs : List SelectiveBuilder,
      run_overload_validation false (combineAll sbs) =
        throw_if_any_op_includes_overloads (combineAll sbs)) ∧
    (run_overload_validation true sbB = Except.ok ()) :=
  throw_iff_overload_ops sbB (by decide)

/-- C6: `extract_all_operators` returns exactly the key set of the
descriptor's operator mapping: a name is in the result iff the mapping
has an entry for it, with no condition on any flag of the records. -/
theorem extract_all_operators_spec (sb : SelectiveBuilder) (k : String) :
    (k ∈ extract_all_operators sb ↔ k ∈ sb.opNames) ∧
    (k ∈ extract_all_operators sb ↔ (sb.getOp k).isSome) := by
  have h1 : k ∈ extract_all_operators sb ↔ k ∈ sb.opNames :=
    List.mem_toFinset
  exact ⟨h1, h1.trans (lookupOp_isSome_iff sb.operators k).symm⟩

/-- C7: `extract_training_operators` returns exactly the names whose
record has `is_used_for_training = true`, and is therefore a subset of
`extract_all_operators`. -/
theorem extract_training_operators_spec (sb : SelectiveBuilder) (hwf : WF sb) :
    (∀ k, k ∈ extract_training_operators sb ↔
      ∃ v, sb.getOp k = some v ∧ v.is_used_for_training = true) ∧
    extract_training_operators sb ⊆ extract_all_operators sb := by
  constructor
  · intro k
    unfold extract_training_operators
    rw [List.mem_toFinset]
    constructor
    · intro h
      obtain ⟨p, hp, hpk⟩ := List.mem_map.mp h
      obtain ⟨hpm, hpf⟩ := List.mem_filter.mp hp
      subst hpk
      exact ⟨p.2, lookupOp_eq_of_mem sb.operators hwf p.1 p.2 hpm, hpf⟩
    · intro ⟨v, hg, hf⟩
      exact List.mem_map.mpr
        ⟨(k, v), List.mem_filter.mpr ⟨lookupOp_mem sb.operators k v hg, hf⟩, rfl⟩
  · intro k hk
    rw [extract_training_operators, List.mem_toFinset] at hk
    obtain ⟨p, hp, hpk⟩ := List.mem_map.mp hk
    rw [extract_all_operators, List.mem_toFinset]
    exact List.mem_map.mpr ⟨p, (List.mem_filter.mp hp).1, hpk⟩

/-- Witness for C7 at the concrete descriptor `sbA` (whose second entry is
marked as used for training). -/
theorem extract_training_operators_spec_witness :
    (∀ k, k ∈ extract_training_operators sbA ↔
      ∃ v, sbA.getOp k = some v ∧ v.is_used_for_training = true) ∧
    extract_training_operators sbA ⊆ extract_all_operators sbA :=
  extract_training_operators_spec sbA (by decide)

/-- C10: with zero input descriptors, `main` hands the descriptor
`SelectiveBuilder.from_yaml_dict({})` (the empty descriptor — the
identity element of `combine`) to validation and serialization, and the
validation accepts it rather than raising. -/
theorem combineAll_nil_empty :
    combineAll [] = SelectiveBuilder.empty ∧
    throw_if_any_op_includes_overloads (combineAll []) = Except.ok () ∧
    (∀ allow_flag : Bool,
      run_overload_validation allow_flag (combineAll []) = Except.ok ()) ∧
    (∀ a, combine_selective_builders a (combineAll []) = a ∧
          combine_selective_builders (combineAll []) a = a) := by
  refine ⟨rfl, rfl, ?_, ?_⟩
  · intro allow_flag
    cases allow_flag <;> rfl
  · intro a
    exact ⟨combine_empty_right a, combine_empty_left a⟩

/- ### `gen_supported_mobile_models` (gen_oplist.py lines 45-86) -/

/-- The parsed `debug_info` JSON of one model dict: `asset_info` maps an
asset name to its list of md5 hashes (`json.loads` itself is external
I/O and is modelled as already done). -/
structure AssetInfo where
  md5_hash : List String
deriving DecidableEq, Repr

structure DebugInfo where
  is_new_style_rule : Bool
  asset_info : List (String × AssetInfo)
deriving DecidableEq, Repr

/-- One input manifest record as far as `gen_supported_mobile_models`
reads it: an optional `debug_info` block. -/
structure ModelDict where
  debug_info : Option DebugInfo
deriving DecidableEq, Repr

/-- gen_oplist.py lines 69-75: the Python set `md5_hashes` after the
collection loop — hashes of every asset of every model dict that has a
`debug_info` block with `is_new_style_rule` set. -/
def collect_md5_hashes (model_dicts : List ModelDict) : Finset String :=
  model_dicts.foldl
    (fun acc md =>
      match md.debug_info with
      | some di =>
          if di.is_new_style_rule then
            di.asset_info.foldl (fun acc2 p => acc2 ∪ p.2.md5_hash.toFinset) acc
          else acc
      | none => acc)
    ∅

/-- gen_oplist.py lines 77-79: the `supported_hashes` accumulator built by
iterating over the Python set `md5_hashes`.  CPython yields the elements
of a set in an order that is not specified and (for strings) varies with
the per-process hash seed, so the order is a parameter here: `order` is
the sequence in which the loop visits the set's elements. -/
def render_supported_hashes (order : List String) : String :=
  order.foldl (fun acc md5 => acc ++ "\"" ++ md5 ++ "\",\n") ""

/-- `order` is a possible iteration order of the Python set `s`: each
element exactly once, in some sequence. -/
def IsIterationOrder (order : List String) (s : Finset String) : Prop :=
  order.Nodup ∧ order.toFinset = s

instance (order : List String) (s : Finset String) :
    Decidable (IsIterationOrder order s) := by
  unfold IsIterationOrder
  infer_instance

/-- gen_oplist.py lines 47-66: the part of the template string before the
`supported_hashes_template` placeholder (with the doubled braces of the
Python format string already reduced to single ones). -/
def supported_models_source_head : String :=
  "/*\n * Generated by gen_oplist.py\n */\n#include \"fb/supported_mobile_models/SupportedMobileModels.h\"\n\n\nstruct SupportedMobileModelCheckerRegistry \x7b\n  SupportedMobileModelCheckerRegistry() \x7b\n    auto& ref = facebook::pytorch::supported_model::SupportedMobileModelChecker::singleton();\n    ref.set_supported_md5_hashes(std::unordered_set<std::string>\x7b\n      "

/-- gen_oplist.py lines 47-66: the part of the template string after the
placeholder. -/
def supported_models_source_tail : String :=
  "\n    \x7d);\n  \x7d\n\x7d;\n\n// This is a global object, initializing which causes the registration to happen.\nSupportedMobileModelCheckerRegistry register_model_versions;\n\n\n"

/-- gen_oplist.py lines 83-86: the full text written to
`SupportedMobileModelsRegistration.cpp`, as a function of the order in
which the hash set was iterated. -/
def gen_supported_mobile_models_source (order : List String) : String :=
  supported_models_source_head ++ render_supported_hashes order ++
    supported_models_source_tail

def demo_model_dicts : List ModelDict :=
  [⟨some ⟨true, [("asset", ⟨["a", "b"]⟩)]⟩⟩]

def demo_model_dicts_single : List ModelDict :=
  [⟨some ⟨true, [("asset", ⟨["c"]⟩)]⟩⟩]

/-- C9 counterexample: for the concrete input `demo_model_dicts` (one
model whose debug info carries the two hashes "a" and "b"), both
`["a", "b"]` and `["b", "a"]` are possible iteration orders of the
collected hash set, and they produce different file contents — so two
runs of the tool on identical inputs need not write identical bytes. -/
theorem gen_supported_content_order_dependent :
    IsIterationOrder ["a", "b"] (collect_md5_hashes demo_model_dicts) ∧
    IsIterationOrder ["b", "a"] (collect_md5_hashes demo_model_dicts) ∧
    gen_supported_mobile_models_source ["a", "b"] ≠
      gen_supported_mobile_models_source ["b", "a"] := by
  refine ⟨by decide, by decide, ?_⟩
  intro h
  have hd := congrArg String.data h
  simp only [gen_supported_mobile_models_source, String.data_append] at hd
  have h1 := List.append_cancel_right hd
  have h2 := List.append_cancel_left h1
  have h3 : render_supported_hashes ["a", "b"] =
      render_supported_hashes ["b", "a"] := String.ext h2
  exact absurd h3 (by decide)

/-- C9 amended: for a fixed input, the collected hash set is determined by
the input alone, so any two runs emit the same hashes up to order (their
iteration orders are permutations of one another); the byte content of
`SupportedMobileModelsRegistration.cpp` is additionally identical
whenever at most one hash is collected (but not in general, as the
counterexample shows). -/
theorem gen_supported_hash_set_deterministic (mds : List ModelDict)
    (o1 o2 : List String)
    (h1 : IsIterationOrder o1 (collect_md5_hashes mds))
    (h2 : IsIterationOrder o2 (collect_md5_hashes mds)) :
    o1.Perm o2 ∧
    ((collect_md5_hashes mds).card ≤ 1 →
      gen_supported_mobile_models_source o1 =
        gen_supported_mobile_models_source o2) := by
  obtain ⟨hn1, hf1⟩ := h1
  obtain ⟨hn2, hf2⟩ := h2
  have hperm : o1.Perm o2 :=
    List.perm_of_nodup_nodup_toFinset_eq hn1 hn2 (hf1.trans hf2.symm)
  refine ⟨hperm, ?_⟩
  intro hcard
  have hlen1 : o1.length ≤ 1 := by
    rw [← List.toFinset_card_of_nodup hn1, hf1]
    exact hcard
  have heq : o1 = o2 := by
    cases o1 with
    | nil => exact (hperm.symm.eq_nil).symm
    | cons a t =>
      have ht : t = [] := by
        have : t.length = 0 := by
          simp only [List.length_cons] at hlen1
          omega
        exact List.length_eq_zero.mp this
      subst ht
      exact (List.perm_singleton.mp hperm.symm).symm
  rw [heq]

/-- Witness for the amended C9 at a concrete one-hash input. -/
theorem gen_supported_hash_set_deterministic_witness :
    (["c"] : List String).Perm ["c"] ∧
    ((collect_md5_hashes demo_model_dicts_single).card ≤ 1 →
      gen_supported_mobile_models_source ["c"] =
        gen_supported_mobile_models_source ["c"]) :=
  gen_supported_hash_set_deterministic demo_model_dicts_single ["c"] ["c"]
    (by decide) (by decide)

end GenOplist
